import Mathlib

/-!
Verification of the tiny-browserbook styling pipeline.

This file shallowly embeds the repository's markup parser
(`src/html/html.rs`), stylesheet parser (`src/css/css.rs`) and style
resolver (`src/style/style.rs`).  The Rust code is written against the
`combine` parser-combinator library; parsers are modelled as functions
`List Char → PResult α` where `PResult` records, as `combine` does,
whether input was consumed on success and on failure (alternation only
recovers from failures that consumed nothing, and `attempt` converts a
consuming failure into a non-consuming one).  Recursive and repeated
parsers take an explicit fuel argument; every repetition in the source
consumes at least one character per step, so any sufficiently large fuel
computes the same result as the Rust code.
-/

set_option autoImplicit false

namespace TinyBrowserbook

/-- Result of running a parser: success or failure, each tagged with
whether any input was consumed (mirroring combine's consumed/empty
distinction). -/
inductive PResult (α : Type) where
  | ok (consumed : Bool) (val : α) (rest : List Char)
  | err (consumed : Bool)
deriving Repr, DecidableEq

/-- A parser over character lists. -/
def CParser (α : Type) : Type := List Char → PResult α

def PResult.isErr {α : Type} : PResult α → Bool
  | .err _ => true
  | .ok _ _ _ => false

/-- Sequencing; consumption accumulates, as in combine. -/
def bindP {α β : Type} (p : CParser α) (f : α → CParser β) : CParser β :=
  fun input =>
    match p input with
    | .err c => .err c
    | .ok c a rest =>
      match f a rest with
      | .err c2 => .err (c || c2)
      | .ok c2 b r2 => .ok (c || c2) b r2

def pureP {α : Type} (a : α) : CParser α := fun input => .ok false a input

/-- A parser that always fails without consuming (used to model a
`combine` `and_then` closure returning `Err`). -/
def failP {α : Type} : CParser α := fun _ => .err false

def mapP {α β : Type} (p : CParser α) (g : α → β) : CParser β :=
  bindP p (fun a => pureP (g a))

/-- combine's `attempt`: a failure is reported as non-consuming. -/
def attemptP {α : Type} (p : CParser α) : CParser α :=
  fun input =>
    match p input with
    | .err _ => .err false
    | r => r

/-- combine's `or`/`choice`: the second branch runs only when the first
fails without consuming input. -/
def orP {α : Type} (p q : CParser α) : CParser α :=
  fun input =>
    match p input with
    | .err false => q input
    | r => r

def satisfyP (pred : Char → Bool) : CParser Char :=
  fun input =>
    match input with
    | [] => .err false
    | c :: rest => if pred c then .ok true c rest else .err false

def charP (c : Char) : CParser Char := satisfyP (fun x => x == c)

/-- combine's `many(satisfy pred)` specialised to characters: a maximal
run of characters satisfying `pred` (possibly empty). -/
def manyChars (pred : Char → Bool) : CParser (List Char) :=
  fun input => .ok (!(input.takeWhile pred).isEmpty) (input.takeWhile pred) (input.dropWhile pred)

/-- combine's `many1(satisfy pred)`: a maximal nonempty run. -/
def many1Chars (pred : Char → Bool) : CParser (List Char) :=
  fun input =>
    match input.takeWhile pred with
    | [] => .err false
    | c :: cs => .ok true (c :: cs) (input.dropWhile pred)

def stringListP : List Char → CParser Unit
  | [] => pureP ()
  | c :: cs => bindP (charP c) (fun _ => stringListP cs)

/-- combine's `char::string`. -/
def stringP (s : String) : CParser String :=
  mapP (stringListP s.toList) (fun _ => s)

/-- combine's `between(openp, closep, p)`. -/
def betweenP {α β γ : Type} (openp : CParser β) (closep : CParser γ) (p : CParser α) : CParser α :=
  bindP openp (fun _ => bindP p (fun a => bindP closep (fun _ => pureP a)))

/-- combine's `p.skip(q)`. -/
def skipP {α β : Type} (p : CParser α) (q : CParser β) : CParser α :=
  bindP p (fun a => bindP q (fun _ => pureP a))

/-- combine's `optional(p)`: recovers only from a non-consuming failure. -/
def optionalP {α : Type} (p : CParser α) : CParser (Option α) :=
  fun input =>
    match p input with
    | .err false => .ok false none input
    | .err true => .err true
    | .ok c a rest => .ok c (some a) rest

/-- combine's `many(p)` with fuel bounding the number of iterations:
stops at a non-consuming failure, propagates a consuming failure. -/
def manyP {α : Type} : Nat → CParser α → CParser (List α)
  | 0, _ => fun _ => .err true
  | f + 1, p => fun input =>
    match p input with
    | .err true => .err true
    | .err false => .ok false [] input
    | .ok c a rest =>
      match manyP f p rest with
      | .err c2 => .err (c || c2)
      | .ok c2 as r2 => .ok (c || c2) (a :: as) r2

/-- combine's `sep_by1(p, sep)` = `p (sep p)*` (no backtracking over a
consuming separator). -/
def sepBy1P {α β : Type} (f : Nat) (p : CParser α) (sep : CParser β) : CParser (List α) :=
  bindP p (fun a => mapP (manyP f (bindP sep (fun _ => p))) (fun as => a :: as))

/-- combine's `sep_by(p, sep)`. -/
def sepByP {α β : Type} (f : Nat) (p : CParser α) (sep : CParser β) : CParser (List α) :=
  orP (sepBy1P f p sep) (pureP [])

/-- combine's `sep_end_by1(p, sep)` = `p (sep p)* sep?`. -/
def sepEndBy1P {α β : Type} : Nat → CParser α → CParser β → CParser (List α)
  | 0, _, _ => fun _ => .err true
  | f + 1, p, sep =>
    bindP p (fun a =>
      orP (bindP sep (fun _ =>
             orP (mapP (sepEndBy1P f p sep) (fun as => a :: as)) (pureP [a])))
          (pureP [a]))

/-- combine's `sep_end_by(p, sep)`. -/
def sepEndByP {α β : Type} (f : Nat) (p : CParser α) (sep : CParser β) : CParser (List α) :=
  orP (sepEndBy1P f p sep) (pureP [])

/-- `space().or(newline())` in the source: one whitespace character. -/
def isSpaceChar (c : Char) : Bool :=
  c == ' ' || c == '\t' || c == '\n' || c == '\r'

/-- `many(space().or(newline()))`, used throughout both grammars. -/
def whitespacesP : CParser (List Char) := manyChars isSpaceChar

/-! ## Key/value maps

The Rust code collects `(String, value)` pairs into a `HashMap` with
`collect()`, which inserts the pairs left to right; inserting an
existing key replaces its value.  An association list with unique keys
models this. -/

section KV

variable {α : Type}

/-- `HashMap::insert`: replace the value of an existing key, otherwise
add a new entry. -/
def insertKV : List (String × α) → String → α → List (String × α)
  | [], k, v => [(k, v)]
  | p :: rest, k, v => if p.1 == k then (k, v) :: rest else p :: insertKV rest k v

/-- `collect::<HashMap<_, _>>()` on a list of pairs. -/
def collectKV (ps : List (String × α)) : List (String × α) :=
  ps.foldl (fun m p => insertKV m p.1 p.2) []

/-- `HashMap::get`. -/
def lookupKV (m : List (String × α)) (k : String) : Option α :=
  (m.find? (fun p => p.1 == k)).map Prod.snd

/-- Number of entries stored under a key. -/
def countKV (m : List (String × α)) (k : String) : Nat :=
  (m.filter (fun p => p.1 == k)).length

end KV

/-! ## DOM (`src/html/dom.rs`) -/

/-- `AttrMap` (a `HashMap<String, String>` in the source). -/
def AttrMap : Type := List (String × String)

structure Element where
  tag_name : String
  attributes : List (String × String)
deriving Repr, DecidableEq

structure Text where
  data : String
deriving Repr, DecidableEq

inductive NodeType where
  | element : Element → NodeType
  | text : Text → NodeType
deriving Repr, DecidableEq

inductive Node where
  | mk : NodeType → List Node → Node
deriving Repr

def Node.node_type : Node → NodeType
  | .mk nt _ => nt

def Node.children : Node → List Node
  | .mk _ cs => cs

/-- `Element::new`. -/
def Element.new (name : String) (attributes : List (String × String)) (children : List Node) : Node :=
  Node.mk (.element { tag_name := name, attributes := attributes }) children

/-- `Text::new`. -/
def Text.new (text : String) : Node :=
  Node.mk (.text { data := text }) []

/-! ## Markup parser (`src/html/html.rs`) -/

/-- `attribute()`: `name ws* '=' ws* '"' chars-not-quote '"'`. -/
def attributeP : CParser (String × String) :=
  bindP (many1Chars Char.isAlpha) (fun name =>
    bindP whitespacesP (fun _ =>
      bindP (charP '=') (fun _ =>
        bindP whitespacesP (fun _ =>
          mapP (betweenP (charP '"') (charP '"') (many1Chars (fun c => c != '"')))
            (fun v => (String.mk name, String.mk v))))))

/-- The pair list produced by `sep_by(attribute(), whitespaces)` inside
`attributes()`, before it is collected into a map. -/
def attrPairsP (f : Nat) : CParser (List (String × String)) :=
  sepByP f attributeP whitespacesP

/-- `attributes()`: pair list collected into an `AttrMap`. -/
def attributesP (f : Nat) : CParser (List (String × String)) :=
  mapP (attrPairsP f) collectKV

/-- `open_tag()`. -/
def openTagP (f : Nat) : CParser (String × List (String × String)) :=
  betweenP (charP '<') (charP '>')
    (bindP (many1Chars Char.isAlpha) (fun name =>
      bindP whitespacesP (fun _ =>
        mapP (attributesP f) (fun attrs => (String.mk name, attrs)))))

/-- `close_tag()`. -/
def closeTagP : CParser String :=
  betweenP (charP '<') (charP '>')
    (bindP (charP '/') (fun _ => mapP (many1Chars Char.isAlpha) String.mk))

/-- `text()`: `many1(satisfy(c != '<')).map(Text::new)`. -/
def textP : CParser Node :=
  mapP (many1Chars (fun c => c != '<')) (fun cs => Text.new (String.mk cs))

/-- `element()`: `(open_tag(), nodes(), close_tag())` with the
`and_then` closure failing when the two tag names differ.  `nodes()` is
inlined at fuel `f` (see `nodesP`). -/
def elementP : Nat → CParser Node
  | 0 => fun _ => .err false
  | f + 1 =>
    bindP (openTagP f) (fun oa =>
      bindP (attemptP (manyP f (orP (attemptP (elementP f)) (attemptP textP)))) (fun cs =>
        bindP closeTagP (fun cl =>
          if oa.1 == cl then pureP (Element.new oa.1 oa.2 cs) else failP)))

/-- `nodes()` = `attempt(many(choice((attempt(element()), attempt(text())))))`. -/
def nodesP (f : Nat) : CParser (List Node) :=
  attemptP (manyP f (orP (attemptP (elementP f)) (attemptP textP)))

theorem elementP_succ (f : Nat) :
    elementP (f + 1) =
      bindP (openTagP f) (fun oa =>
        bindP (nodesP f) (fun cs =>
          bindP closeTagP (fun cl =>
            if oa.1 == cl then pureP (Element.new oa.1 oa.2 cs) else failP))) := rfl

/-! ## Stylesheet model and parser (`src/css/css.rs`) -/

inductive CSSValue where
  | keyword : String → CSSValue
deriving Repr, DecidableEq

structure Declaration where
  name : String
  value : CSSValue
deriving Repr, DecidableEq

inductive AttributeSelectorOp where
  | eq
  | contain
deriving Repr, DecidableEq

inductive SimpleSelector where
  | universalSelector : SimpleSelector
  | typeSelector (tag_name : String) : SimpleSelector
  | attributeSelector (tag_name : String) (op : AttributeSelectorOp)
      (attr : String) (value : String) : SimpleSelector
  | classSelector (class_name : String) : SimpleSelector
deriving Repr, DecidableEq

def Selector : Type := SimpleSelector

structure Rule where
  selectors : List SimpleSelector
  declarations : List Declaration
deriving Repr, DecidableEq

structure Stylesheet where
  rules : List Rule
deriving Repr, DecidableEq

/-- `Stylesheet::new`. -/
def Stylesheet.new (rules : List Rule) : Stylesheet := { rules := rules }

/-- `SimpleSelector::matches`. -/
def SimpleSelector.matches (s : SimpleSelector) (n : Node) : Bool :=
  match s with
  | .universalSelector => true
  | .typeSelector tag_name =>
    match n.node_type with
    | .element e => e.tag_name == tag_name
    | _ => false
  | .attributeSelector tag_name _ _ _ =>
    match n.node_type with
    | .element e => e.tag_name == tag_name
    | _ => false
  | .classSelector _ => false

/-- `Rule::matches`: any selector matches. -/
def Rule.matches (r : Rule) (n : Node) : Bool :=
  r.selectors.any (fun s => s.matches n)

/-- `simple_selector()`. -/
def simpleSelectorP : CParser SimpleSelector :=
  orP (mapP (charP '*') (fun _ => SimpleSelector.universalSelector))
    (orP (bindP (charP '.') (fun _ =>
            mapP (many1Chars Char.isAlpha) (fun cs => SimpleSelector.classSelector (String.mk cs))))
      (bindP (skipP (many1Chars Char.isAlpha) whitespacesP) (fun tag =>
        bindP (optionalP
                (bindP (skipP (charP '[') whitespacesP) (fun _ =>
                  bindP (many1Chars Char.isAlpha) (fun attr =>
                    bindP (orP (stringP "=") (stringP "~=")) (fun op =>
                      bindP (many1Chars Char.isAlpha) (fun v =>
                        bindP (charP ']') (fun _ =>
                          pureP (String.mk attr, op, String.mk v)))))))) (fun opts =>
          match opts with
          | some (attr, op, v) =>
            match op with
            | "=" => pureP (SimpleSelector.attributeSelector (String.mk tag) .eq attr v)
            | "~=" => pureP (SimpleSelector.attributeSelector (String.mk tag) .contain attr v)
            | _ => failP
          | none => pureP (SimpleSelector.typeSelector (String.mk tag))))))

/-- `selectors()`. -/
def selectorsP (f : Nat) : CParser (List SimpleSelector) :=
  sepByP f (skipP simpleSelectorP whitespacesP) (skipP (charP ',') whitespacesP)

/-- `css_value()`. -/
def cssValueP : CParser CSSValue :=
  mapP (many1Chars Char.isAlpha) (fun cs => CSSValue.keyword (String.mk cs))

/-- `declaration()`. -/
def declarationP : CParser Declaration :=
  bindP (skipP (many1Chars Char.isAlpha) whitespacesP) (fun k =>
    bindP (skipP (charP ':') whitespacesP) (fun _ =>
      mapP cssValueP (fun v => { name := String.mk k, value := v })))

/-- `declarations()`. -/
def declarationsP (f : Nat) : CParser (List Declaration) :=
  sepEndByP f (skipP declarationP whitespacesP) (skipP (charP ';') whitespacesP)

/-- `rule()`. -/
def ruleP (f : Nat) : CParser Rule :=
  bindP (skipP (selectorsP f) whitespacesP) (fun sels =>
    bindP (skipP (charP '{') whitespacesP) (fun _ =>
      bindP (skipP (declarationsP f) whitespacesP) (fun decls =>
        bindP (charP '}') (fun _ =>
          pureP { selectors := sels, declarations := decls }))))

/-- `rules()`. -/
def rulesP (f : Nat) : CParser (List Rule) :=
  bindP whitespacesP (fun _ => manyP f (skipP (ruleP f) whitespacesP))

/-- `parse()`: runs `rules()` on the input and wraps the produced rule
list in a `Stylesheet`, ignoring any unconsumed rest; the `unwrap()`
panic on a parse error is modelled as `none`. -/
def cssParse (f : Nat) (input : List Char) : Option Stylesheet :=
  match rulesP f input with
  | .ok _ rs _ => some (Stylesheet.new rs)
  | .err _ => none

/-! ## Style resolver (`src/style/style.rs`) -/

inductive StyledNode where
  | mk : NodeType → List StyledNode → List (String × CSSValue) → StyledNode
deriving Repr

def StyledNode.node_type : StyledNode → NodeType
  | .mk nt _ _ => nt

def StyledNode.children : StyledNode → List StyledNode
  | .mk _ cs _ => cs

def StyledNode.properties : StyledNode → List (String × CSSValue)
  | .mk _ _ ps => ps

/-- The (name, value) pairs of the declarations of all matching rules,
in stylesheet order then declaration order — the list that
`to_styled_node` feeds into `collect::<HashMap<_, _>>()`. -/
def declsOf (n : Node) (s : Stylesheet) : List (String × CSSValue) :=
  (s.rules.filter (fun r => r.matches n)).flatMap
    (fun r => r.declarations.map (fun d => (d.name, d.value)))

/-- The collected property map of `to_styled_node`. -/
def propsOf (n : Node) (s : Stylesheet) : List (String × CSSValue) :=
  collectKV (declsOf n s)

mutual

/-- `to_styled_node`. -/
def toStyledNode : Node → Stylesheet → Option StyledNode
  | .mk nt cs, s =>
    some (.mk nt (toStyledChildren cs s) (propsOf (.mk nt cs) s))

/-- The `filter_map(to_styled_node)` over the children. -/
def toStyledChildren : List Node → Stylesheet → List StyledNode
  | [], _ => []
  | c :: rest, s =>
    match toStyledNode c s with
    | some sn => sn :: toStyledChildren rest s
    | none => toStyledChildren rest s

end

mutual

/-- Forgets the styling, recovering the underlying `Node`. -/
def stripStyled : StyledNode → Node
  | .mk nt cs _ => Node.mk nt (stripStyledList cs)

def stripStyledList : List StyledNode → List Node
  | [] => []
  | c :: rest => stripStyled c :: stripStyledList rest

end

/-! ## Association-map lemmas

Facts about `insertKV`/`collectKV` needed to reason about the two
`collect::<HashMap<_, _>>()` calls in the source. -/

section KVLemmas

variable {α : Type}

theorem lookupKV_nil (j : String) : lookupKV ([] : List (String × α)) j = none := rfl

theorem lookupKV_cons (q : String × α) (rest : List (String × α)) (j : String) :
    lookupKV (q :: rest) j = if q.1 = j then some q.2 else lookupKV rest j := by
  unfold lookupKV
  by_cases h : q.1 = j
  · rw [List.find?_cons_of_pos _ (by simpa using h), if_pos h]
    rfl
  · rw [List.find?_cons_of_neg _ (by simpa using h), if_neg h]

theorem countKV_nil (j : String) : countKV ([] : List (String × α)) j = 0 := rfl

theorem countKV_cons (q : String × α) (rest : List (String × α)) (j : String) :
    countKV (q :: rest) j = if q.1 = j then countKV rest j + 1 else countKV rest j := by
  by_cases h : q.1 = j <;> simp [countKV, List.filter_cons, h, beq_iff_eq]

theorem insertKV_cons (p : String × α) (rest : List (String × α)) (k : String) (v : α) :
    insertKV (p :: rest) k v =
      if p.1 = k then (k, v) :: rest else p :: insertKV rest k v := by
  by_cases h : p.1 = k <;> simp [insertKV, h, beq_iff_eq]

theorem lookupKV_insertKV (m : List (String × α)) (k : String) (v : α) (j : String) :
    lookupKV (insertKV m k v) j = if j = k then some v else lookupKV m j := by
  induction m with
  | nil =>
    show lookupKV [(k, v)] j = _
    rw [lookupKV_cons, lookupKV_nil]
    by_cases h : j = k
    · rw [if_pos h.symm, if_pos h]
    · rw [if_neg (fun hh => h hh.symm), if_neg h]
  | cons p rest ih =>
    rw [insertKV_cons]
    by_cases hp : p.1 = k
    · rw [if_pos hp, lookupKV_cons, lookupKV_cons]
      by_cases hj : j = k
      · rw [if_pos hj.symm, if_pos hj]
      · have hpj : ¬(p.1 = j) := fun h0 => hj (hp.symm.trans h0).symm
        rw [if_neg (fun hh => hj hh.symm), if_neg hj, if_neg hpj]
    · rw [if_neg hp, lookupKV_cons, lookupKV_cons, ih]
      by_cases hj : p.1 = j
      · have hjk : ¬(j = k) := fun h0 => hp (hj.trans h0)
        rw [if_pos hj, if_neg hjk, if_pos hj]
      · rw [if_neg hj, if_neg hj]

theorem countKV_insertKV_self (m : List (String × α)) (k : String) (v : α) :
    countKV (insertKV m k v) k = if countKV m k = 0 then 1 else countKV m k := by
  induction m with
  | nil =>
    show countKV [(k, v)] k = _
    rw [countKV_cons, countKV_nil]
    simp
  | cons p rest ih =>
    rw [insertKV_cons]
    by_cases hp : p.1 = k
    · rw [if_pos hp, countKV_cons, countKV_cons, if_pos rfl, if_pos hp]
      simp
    · rw [if_neg hp, countKV_cons, if_neg hp, countKV_cons, if_neg hp, ih]

theorem countKV_insertKV_ne (m : List (String × α)) (k : String) (v : α) (j : String)
    (hne : j ≠ k) : countKV (insertKV m k v) j = countKV m j := by
  induction m with
  | nil =>
    show countKV [(k, v)] j = _
    rw [countKV_cons, countKV_nil, if_neg (fun h => hne h.symm)]
  | cons p rest ih =>
    rw [insertKV_cons]
    by_cases hp : p.1 = k
    · rw [if_pos hp, countKV_cons, countKV_cons]
      have hkj : ¬(k = j) := fun h => hne h.symm
      have hpj : ¬(p.1 = j) := fun h0 => hne (h0.symm.trans hp)
      rw [if_neg hkj, if_neg hpj]
    · rw [if_neg hp, countKV_cons, countKV_cons, ih]

theorem countKV_foldl_le (ps : List (String × α)) (m : List (String × α))
    (h : ∀ i, countKV m i ≤ 1) (j : String) :
    countKV (ps.foldl (fun acc p => insertKV acc p.1 p.2) m) j ≤ 1 := by
  induction ps generalizing m with
  | nil => exact h j
  | cons p rest ih =>
    refine ih (insertKV m p.1 p.2) (fun i => ?_)
    by_cases hi : i = p.1
    · rw [hi, countKV_insertKV_self]
      split
      · exact le_refl 1
      · exact h p.1
    · rw [countKV_insertKV_ne m p.1 p.2 i hi]
      exact h i

theorem countKV_foldl_pos (ps : List (String × α)) (m : List (String × α)) (j : String)
    (h : j ∈ ps.map Prod.fst ∨ 1 ≤ countKV m j) :
    1 ≤ countKV (ps.foldl (fun acc p => insertKV acc p.1 p.2) m) j := by
  induction ps generalizing m with
  | nil => simpa using h.resolve_left (by simp)
  | cons p rest ih =>
    refine ih (insertKV m p.1 p.2) ?_
    rcases h with hmem | hpos
    · rw [List.map_cons] at hmem
      rcases List.mem_cons.mp hmem with hj | hj
      · right
        rw [hj, countKV_insertKV_self]
        split <;> omega
      · left; exact hj
    · right
      by_cases hj : j = p.1
      · rw [hj, countKV_insertKV_self]
        split <;> [omega; exact hj ▸ hpos]
      · rwa [countKV_insertKV_ne m p.1 p.2 j hj]

/-- Collecting pairs into a map leaves exactly one entry per occurring
key. -/
theorem countKV_collectKV_of_mem (ps : List (String × α)) (j : String)
    (h : j ∈ ps.map Prod.fst) : countKV (collectKV ps) j = 1 := by
  refine Nat.le_antisymm ?_ ?_
  · exact countKV_foldl_le ps [] (fun i => by simp [countKV, List.filter]) j
  · exact countKV_foldl_pos ps [] j (Or.inl h)

theorem lookupKV_foldl (ps : List (String × α)) (m : List (String × α)) (j : String) :
    lookupKV (ps.foldl (fun acc p => insertKV acc p.1 p.2) m) j =
      ((ps.reverse.find? (fun p => p.1 == j)).map Prod.snd).or (lookupKV m j) := by
  induction ps generalizing m with
  | nil => simp
  | cons p rest ih =>
    rw [List.foldl_cons, ih, List.reverse_cons, List.find?_append]
    cases hfind : rest.reverse.find? (fun p => p.1 == j) with
    | some q => rfl
    | none =>
      rw [lookupKV_insertKV]
      by_cases hj : p.1 = j
      · rw [List.find?_cons_of_pos _ (by simpa using hj), if_pos hj.symm]
        rfl
      · rw [List.find?_cons_of_neg _ (by simpa using hj), List.find?_nil,
          if_neg (fun h0 => hj h0.symm)]
        rfl

/-- Last writer wins: looking up a key in the collected map finds the
value of the key's last occurrence in the pair list. -/
theorem lookupKV_collectKV (ps : List (String × α)) (j : String) :
    lookupKV (collectKV ps) j = (ps.reverse.find? (fun p => p.1 == j)).map Prod.snd := by
  rw [collectKV, lookupKV_foldl]
  simp [lookupKV]

end KVLemmas

/-! ## Auxiliary facts -/

/-- When no rule matches, the collected property map is empty. -/
theorem propsOf_eq_nil (n : Node) (s : Stylesheet)
    (h : ∀ r ∈ s.rules, r.matches n = false) : propsOf n s = [] := by
  unfold propsOf declsOf
  rw [List.filter_eq_nil_iff.mpr (fun r hr => by simp [h r hr])]
  rfl

/-- `many` can only fail having consumed input. -/
theorem manyP_err_consumed {α : Type} (f : Nat) (p : CParser α) (input : List Char)
    (c : Bool) (h : manyP f p input = .err c) : c = true := by
  induction f generalizing input c with
  | zero => simpa [manyP] using h.symm
  | succ f ih =>
    simp only [manyP] at h
    split at h
    · injection h with h2
      exact h2.symm
    · exact absurd h (by simp)
    · split at h
      · next c2 hm =>
          injection h with h2
          have hc2 := ih _ c2 hm
          rw [← h2, hc2, Bool.or_true]
      · exact absurd h (by simp)

/-- `rules()` can only fail having consumed input. -/
theorem rulesP_err_consumed (f : Nat) (input : List Char) (c : Bool)
    (h : rulesP f input = .err c) : c = true := by
  simp only [rulesP, bindP] at h
  split at h
  · next cw hw => exact absurd hw (by simp [whitespacesP, manyChars])
  · split at h
    · next c2 hm =>
        injection h with h2
        have hc2 := manyP_err_consumed f _ _ c2 hm
        rw [← h2, hc2, Bool.or_true]
    · exact absurd h (by simp)

mutual

/-- Styling then forgetting the style gives back the original node. -/
theorem stripStyled_toStyledNode (n : Node) (s : Stylesheet) :
    (toStyledNode n s).map stripStyled = some n := by
  match n with
  | .mk nt cs =>
    rw [toStyledNode]
    simp only [Option.map_some', stripStyled, Option.some.injEq, Node.mk.injEq, true_and]
    exact stripStyledList_toStyledChildren cs s

theorem stripStyledList_toStyledChildren (cs : List Node) (s : Stylesheet) :
    stripStyledList (toStyledChildren cs s) = cs := by
  match cs with
  | [] => rfl
  | c :: rest =>
    have h := stripStyled_toStyledNode c s
    cases hc : toStyledNode c s with
    | none => rw [hc] at h; simp at h
    | some sn =>
      rw [hc] at h
      simp only [Option.map_some', Option.some.injEq] at h
      rw [toStyledChildren, hc]
      simp only [stripStyledList, h]
      rw [stripStyledList_toStyledChildren rest s]

end

/-! ## Claims -/

/-- C1: whenever `element`'s three components — open tag, child nodes,
close tag — parse successfully but the open and close tag names differ,
`element` fails (the mandatory tag-mismatch check); in particular the
input `"<a><b></a></b>"` is rejected.  A mismatched element is never
accepted. -/
theorem claim_C1 :
    (∀ (f : Nat) (input r1 r2 r3 : List Char) (c1 c2 c3 : Bool)
       (o : String) (attrs : List (String × String)) (cs : List Node) (cl : String),
      openTagP f input = .ok c1 (o, attrs) r1 →
      nodesP f r1 = .ok c2 cs r2 →
      closeTagP r2 = .ok c3 cl r3 →
      o ≠ cl →
      (elementP (f + 1) input).isErr = true)
    ∧ (elementP 20 ("<a><b></a></b>".toList)).isErr = true := by
  constructor
  · intro f input r1 r2 r3 c1 c2 c3 o attrs cs cl h1 h2 h3 hne
    have hbeq : (o == cl) = false := beq_eq_false_iff_ne.mpr hne
    rw [elementP_succ]
    simp [bindP, h1, h2, h3, hbeq, failP, PResult.isErr]
  · decide

theorem claim_C1_witness : (elementP 2 ("<a></b>".toList)).isErr = true :=
  claim_C1.1 1 ("<a></b>".toList) ("</b>".toList) ("</b>".toList) [] true false true
    "a" [] [] "b" rfl rfl rfl (by decide)

/-- C2: the property map `to_styled_node` attaches to a node maps each
property name to the value of the last declaration for that name among
the matching rules, taken in stylesheet order and declaration order
(last writer wins, no specificity). -/
theorem claim_C2 (n : Node) (s : Stylesheet) (nm : String) (sn : StyledNode)
    (h : toStyledNode n s = some sn) :
    lookupKV sn.properties nm =
      ((declsOf n s).reverse.find? (fun p => p.1 == nm)).map Prod.snd := by
  cases n with
  | mk nt cs =>
    rw [toStyledNode] at h
    injection h with h2
    subst h2
    show lookupKV (propsOf (Node.mk nt cs) s) nm = _
    rw [propsOf, lookupKV_collectKV]

theorem claim_C2_witness :
    lookupKV (StyledNode.properties
        (StyledNode.mk (NodeType.text { data := "x" }) []
          [("display", CSSValue.keyword "inline")])) "display"
      = some (CSSValue.keyword "inline") := by
  have h := claim_C2 (Node.mk (NodeType.text { data := "x" }) [])
      (Stylesheet.new
        [ { selectors := [SimpleSelector.universalSelector],
            declarations := [{ name := "display", value := CSSValue.keyword "block" }] },
          { selectors := [SimpleSelector.universalSelector],
            declarations := [{ name := "display", value := CSSValue.keyword "inline" }] } ])
      "display"
      (StyledNode.mk (NodeType.text { data := "x" }) []
        [("display", CSSValue.keyword "inline")])
      (by rw [toStyledNode, toStyledChildren]; rfl)
  rw [h]
  rfl

/-- C3: `Rule::matches` returns true exactly when at least one of the
rule's selectors matches the node (OR semantics). -/
theorem claim_C3 (r : Rule) (n : Node) :
    r.matches n = true ↔ ∃ sel ∈ r.selectors, sel.matches n = true := by
  simp [Rule.matches, List.any_eq_true]

/-- C4: a class selector matches no node at all. -/
theorem claim_C4 (class_name : String) (n : Node) :
    (SimpleSelector.classSelector class_name).matches n = false := rfl

/-- C5: an attribute selector matches exactly the element nodes whose
tag name equals the selector's tag name; its stored op, attribute and
value never influence matching, so two attribute selectors with the
same tag name match the same nodes. -/
theorem claim_C5 (tag a v a2 v2 : String) (op op2 : AttributeSelectorOp) (n : Node) :
    ((SimpleSelector.attributeSelector tag op a v).matches n = true ↔
      ∃ e : Element, n.node_type = NodeType.element e ∧ e.tag_name = tag)
    ∧ (SimpleSelector.attributeSelector tag op a v).matches n =
        (SimpleSelector.attributeSelector tag op2 a2 v2).matches n := by
  cases n with
  | mk nt cs =>
    cases nt with
    | element e =>
      refine ⟨?_, rfl⟩
      simp [SimpleSelector.matches, Node.node_type, beq_iff_eq]
    | text t =>
      refine ⟨?_, rfl⟩
      simp [SimpleSelector.matches, Node.node_type]

/-- C6 counterexample: the grammar-violating stylesheet input
`"p { display: block; } @"` does not surface a failure — `parse`
succeeds and returns the rule list built from the parsable prefix,
silently dropping the trailing `"@"`. -/
theorem claim_C6_counterexample :
    rulesP 30 ("p { display: block; } @".toList) =
      .ok true
        [{ selectors := [SimpleSelector.typeSelector "p"],
           declarations := [{ name := "display", value := CSSValue.keyword "block" }] }]
        ['@']
    ∧ cssParse 30 ("p { display: block; } @".toList) =
        some (Stylesheet.new
          [{ selectors := [SimpleSelector.typeSelector "p"],
             declarations := [{ name := "display", value := CSSValue.keyword "block" }] }]) :=
  ⟨rfl, rfl⟩

/-- C6 (amended): stylesheet parsing either succeeds, returning exactly
the rules parsed from a prefix of the input (any unconsumed remainder —
such as trailing garbage that cannot begin a rule — is silently
ignored), or `rules()` fails after consuming input and `parse`
surfaces the failure. -/
theorem claim_C6 (f : Nat) (input : List Char) :
    (∃ c rs rest, rulesP f input = .ok c rs rest
        ∧ cssParse f input = some (Stylesheet.new rs))
    ∨ (rulesP f input = .err true ∧ cssParse f input = none) := by
  cases h : rulesP f input with
  | ok c rs rest =>
    exact Or.inl ⟨c, rs, rest, rfl, by simp [cssParse, h]⟩
  | err c =>
    have hc := rulesP_err_consumed f input c h
    subst hc
    exact Or.inr ⟨rfl, by simp [cssParse, h]⟩

/-- C7: style resolution always succeeds, and a node matched by no rule
gets an empty property mapping rather than an error. -/
theorem claim_C7 (n : Node) (s : Stylesheet) :
    (∃ sn, toStyledNode n s = some sn)
    ∧ ((∀ r ∈ s.rules, r.matches n = false) →
        ∃ sn, toStyledNode n s = some sn ∧ sn.properties = []) := by
  cases n with
  | mk nt cs =>
    constructor
    · exact ⟨_, by rw [toStyledNode]⟩
    · intro h
      refine ⟨StyledNode.mk nt (toStyledChildren cs s) (propsOf (Node.mk nt cs) s),
        by rw [toStyledNode], ?_⟩
      show propsOf (Node.mk nt cs) s = []
      exact propsOf_eq_nil _ s h

theorem claim_C7_witness :
    ∃ sn, toStyledNode (Node.mk (NodeType.text { data := "x" }) [])
        (Stylesheet.new
          [{ selectors := [SimpleSelector.typeSelector "div"],
             declarations := [{ name := "display", value := CSSValue.keyword "block" }] }])
      = some sn ∧ sn.properties = [] :=
  (claim_C7 _ _).2 (by decide)

/-- C8: the attribute mapping of an open tag keeps exactly one entry per
attribute name, holding the value of the name's last occurrence in the
tag (duplicate names: last wins). -/
theorem claim_C8 (f : Nat) (input rest : List Char) (c : Bool)
    (ps : List (String × String)) (h : attrPairsP f input = .ok c ps rest) :
    attributesP f input = .ok c (collectKV ps) rest
    ∧ ∀ nm : String, nm ∈ ps.map Prod.fst →
        countKV (collectKV ps) nm = 1
        ∧ lookupKV (collectKV ps) nm =
            (ps.reverse.find? (fun p => p.1 == nm)).map Prod.snd := by
  constructor
  · simp only [attributesP, mapP, bindP, pureP, h]
    rw [Bool.or_false]
  · intro nm hmem
    exact ⟨countKV_collectKV_of_mem ps nm hmem, lookupKV_collectKV ps nm⟩

theorem claim_C8_witness :
    countKV (collectKV [("a", "1"), ("a", "2")]) "a" = 1
    ∧ lookupKV (collectKV [("a", "1"), ("a", "2")]) "a" =
        (([("a", "1"), ("a", "2")] : List (String × String)).reverse.find?
          (fun p => p.1 == "a")).map Prod.snd :=
  (claim_C8 10 ("a=\"1\" a=\"2\"".toList) [] true [("a", "1"), ("a", "2")] rfl).2
    "a" (by decide)

/-- C9: the styled tree is shape-identical to the input tree — forgetting
the styling recovers the input node exactly, so every node (whatever its
resolved display value) yields exactly one styled node with the same
node type and children in the same order. -/
theorem claim_C9 (n : Node) (s : Stylesheet) :
    (toStyledNode n s).map stripStyled = some n :=
  stripStyled_toStyledNode n s

/-- C10: every node produced by the `text` rule is a leaf text node
whose data is nonempty and contains no `<`. -/
theorem claim_C10 (input rest : List Char) (c : Bool) (nd : Node)
    (h : textP input = .ok c nd rest) :
    ∃ cs : List Char, nd = Node.mk (NodeType.text { data := String.mk cs }) []
      ∧ cs ≠ [] ∧ '<' ∉ cs := by
  simp only [textP, mapP, bindP, many1Chars, pureP] at h
  split at h
  · exact absurd h (by simp)
  · next consumed a as heq =>
      injection h with hc hnd hrest
      split at heq
      · exact absurd heq (by simp)
      · next c0 cs0 htk =>
          injection heq with e1 e2 e3
          refine ⟨a, ?_, ?_, ?_⟩
          · rw [← hnd]
            rfl
          · rw [← e2]
            simp
          · intro hmem
            have hmem2 : '<' ∈ input.takeWhile (fun ch => ch != '<') := by
              rw [htk, e2]; exact hmem
            have hp := List.mem_takeWhile_imp hmem2
            simp at hp

theorem claim_C10_witness :
    ∃ cs : List Char,
      Node.mk (NodeType.text { data := "hi" }) []
        = Node.mk (NodeType.text { data := String.mk cs }) []
      ∧ cs ≠ [] ∧ '<' ∉ cs :=
  claim_C10 ("hi<x".toList) ("<x".toList) true
    (Node.mk (NodeType.text { data := "hi" }) []) rfl

end TinyBrowserbook
